import Mathlib

/-!
Verification of the feed lifecycle and delivery engine of the discord-feed
repository against its natural-language specification.

The TypeScript sources are shallowly embedded: pure functions become Lean
functions, JavaScript `Map`s become association lists, SQLite tables become
lists of row structures, and the outcome of asynchronous I/O (upstream fetch,
webhook POST, `Math.random()`) is passed in explicitly as data.  JavaScript
`Array.prototype.toSorted` / `sort` (stable sorts) are modelled by
`List.insertionSort`, which is also stable and inserts an element before the
elements it ties with, exactly like a stable sort keeps earlier elements of
the input first.  `localeCompare` applied to the lower-cased strings is
modelled as ordinal comparison of the lower-cased character sequences, which
agrees with it on the ASCII tag strings the program handles.
-/

/-! ## Character/string ordering used by getTagKey (src/src/util.ts) -/

/-- ASCII lower-casing of one character, modelling `String.prototype.toLowerCase`
on the ASCII range (the only range exercised by tag strings). -/
def lowerChar (c : Char) : Char :=
  if 65 ≤ c.toNat ∧ c.toNat ≤ 90 then Char.ofNat (c.toNat + 32) else c

/-- Model of `tag.toLowerCase()`. -/
def lowerStr (s : String) : String := String.mk (s.data.map lowerChar)

/-- Lexicographic (ordinal) comparison of character sequences, the model of a
non-positive `localeCompare` result for the ASCII strings handled here. -/
def charsLe : List Char → List Char → Bool
  | [], _ => true
  | _ :: _, [] => false
  | a :: as, b :: bs =>
    if a.toNat < b.toNat then true
    else if b.toNat < a.toNat then false
    else charsLe as bs

theorem charsLe_total : ∀ as bs, charsLe as bs = true ∨ charsLe bs as = true := by
  intro as
  induction as with
  | nil => intro bs; left; rfl
  | cons a as ih =>
    intro bs
    cases bs with
    | nil => right; rfl
    | cons b bs =>
      rcases Nat.lt_trichotomy a.toNat b.toNat with h | h | h
      · left; simp [charsLe, h]
      · rcases ih bs with h2 | h2
        · left; simp [charsLe, h, h2]
        · right; simp [charsLe, h.symm, h2]
      · right; simp [charsLe, h]

theorem charsLe_trans :
    ∀ as bs cs, charsLe as bs = true → charsLe bs cs = true → charsLe as cs = true := by
  intro as
  induction as with
  | nil => intro bs cs _ _; rfl
  | cons a as ih =>
    intro bs cs hab hbc
    cases bs with
    | nil => simp [charsLe] at hab
    | cons b bs =>
      cases cs with
      | nil => simp [charsLe] at hbc
      | cons c cs =>
        simp only [charsLe] at hab hbc ⊢
        by_cases h1 : a.toNat < b.toNat
        · by_cases h2 : b.toNat < c.toNat
          · simp [Nat.lt_trans h1 h2]
          · by_cases h3 : c.toNat < b.toNat
            · simp [h2, h3] at hbc
            · have h4 : a.toNat < c.toNat := by omega
              simp [h4]
        · by_cases h4 : b.toNat < a.toNat
          · simp [h1, h4] at hab
          · have hab' : charsLe as bs = true := by simpa [h1, h4] using hab
            by_cases h2 : b.toNat < c.toNat
            · have h5 : a.toNat < c.toNat := by omega
              simp [h5]
            · by_cases h3 : c.toNat < b.toNat
              · simp [h2, h3] at hbc
              · have hbc' : charsLe bs cs = true := by simpa [h2, h3] using hbc
                have h5 : ¬ a.toNat < c.toNat := by omega
                have h6 : ¬ c.toNat < a.toNat := by omega
                simp [h5, h6, ih bs cs hab' hbc']

theorem charsLe_antisymm :
    ∀ as bs, charsLe as bs = true → charsLe bs as = true → as = bs := by
  intro as
  induction as with
  | nil =>
    intro bs _ hba
    cases bs with
    | nil => rfl
    | cons b bs => simp [charsLe] at hba
  | cons a as ih =>
    intro bs hab hba
    cases bs with
    | nil => simp [charsLe] at hab
    | cons b bs =>
      simp only [charsLe] at hab hba
      by_cases h1 : a.toNat < b.toNat
      · have h2 : ¬ b.toNat < a.toNat := by omega
        simp [h1, h2] at hba
      · by_cases h2 : b.toNat < a.toNat
        · simp [h1, h2] at hab
        · have ha : a = b :=
            Char.ext (UInt32.eq_of_val_eq (Fin.ext (by omega : a.toNat = b.toNat)))
          have hab' : charsLe as bs = true := by simpa [h1, h2] using hab
          have hba' : charsLe bs as = true := by simpa [h1, h2] using hba
          rw [ha, ih bs hab' hba']

/-! ## getTagKey (src/src/util.ts, lines 47-50)

```ts
export function getTagKey(tags: string[]) {
  const sortedTags = tags.toSorted((a, b) => a.toLowerCase().localeCompare(b.toLowerCase()));
  return sortedTags.join('+')
}
```
-/

/-- Comparator of the `toSorted` call: `a` sorts no later than `b` when the
lower-casing of `a` is lexicographically at most the lower-casing of `b`. -/
def tagLe (a b : String) : Bool := charsLe (lowerStr a).data (lowerStr b).data

/-- Model of `getTagKey`: stable-sort the tags by the case-insensitive
comparator and join with the separator `+`.  Note the source neither
lower-cases the output nor removes duplicates. -/
def getTagKey (tags : List String) : String :=
  String.intercalate "+" (List.insertionSort (fun a b => tagLe a b = true) tags)

theorem tagLe_total : ∀ a b : String, tagLe a b = true ∨ tagLe b a = true := by
  intro a b; exact charsLe_total _ _

theorem tagLe_trans :
    ∀ a b c : String, tagLe a b = true → tagLe b c = true → tagLe a c = true := by
  intro a b c hab hbc; exact charsLe_trans _ _ _ hab hbc

theorem tagLe_antisymm :
    ∀ a b : String, tagLe a b = true → tagLe b a = true → lowerStr a = lowerStr b := by
  intro a b hab hba
  have h := charsLe_antisymm _ _ hab hba
  cases ha : lowerStr a with
  | mk da =>
    cases hb : lowerStr b with
    | mk db =>
      have : da = db := by
        have h1 := ha ▸ h
        have h2 := hb ▸ h1
        simpa using h2
      simp [this]

/-- Two sorted lists that are permutations of each other are equal, provided
any two members whose lower-casings coincide are identical strings (local
antisymmetry for the case-insensitive comparator). -/
theorem sorted_tie_inj_eq :
    ∀ (l₁ l₂ : List String), l₁.Perm l₂ →
      l₁.Sorted (fun a b => tagLe a b = true) →
      l₂.Sorted (fun a b => tagLe a b = true) →
      (∀ a ∈ l₁, ∀ b ∈ l₁, lowerStr a = lowerStr b → a = b) →
      l₁ = l₂ := by
  intro l₁
  induction l₁ with
  | nil => intro l₂ hperm _ _ _; exact (hperm.symm.eq_nil).symm
  | cons a t ih =>
    intro l₂ hperm hs1 hs2 hinj
    cases l₂ with
    | nil => exact absurd hperm.eq_nil (by simp)
    | cons b u =>
      have hab : a = b := by
        by_contra hne
        have ha2 : a ∈ b :: u := hperm.mem_iff.mp (List.mem_cons_self a t)
        have hb1 : b ∈ a :: t := hperm.symm.mem_iff.mp (List.mem_cons_self b u)
        have hau : a ∈ u := by
          rcases List.mem_cons.mp ha2 with h | h
          · exact absurd h hne
          · exact h
        have hbt : b ∈ t := by
          rcases List.mem_cons.mp hb1 with h | h
          · exact absurd h.symm hne
          · exact h
        have h1 : tagLe a b = true := ((List.sorted_cons.mp hs1).1 b hbt)
        have h2 : tagLe b a = true := ((List.sorted_cons.mp hs2).1 a hau)
        exact hne (hinj a (List.mem_cons_self a t) b (List.mem_cons.mpr (Or.inr hbt))
          (tagLe_antisymm a b h1 h2))
      subst hab
      have htail : t = u := by
        refine ih u (hperm.cons_inv) (List.sorted_cons.mp hs1).2 (List.sorted_cons.mp hs2).2 ?_
        intro x hx y hy hxy
        exact hinj x (List.mem_cons.mpr (Or.inr hx)) y (List.mem_cons.mpr (Or.inr hy)) hxy
      rw [htail]

/-- C1 counterexample: the key is neither lower-cased nor deduplicated, so two
tag lists equal up to case (the specification's own example) or up to
duplication produce different keys. -/
theorem getTagKey_canonicalization_counterexample :
    getTagKey ["Foo", "bar"] ≠ getTagKey ["BAR", "foo"] ∧
    getTagKey ["a", "a"] ≠ getTagKey ["a"] := by decide

/-- C1 (amended): `getTagKey` stable-sorts the tag list case-insensitively and
joins with the fixed separator `+`, preserving the original case and any
duplicates.  Consequently two tag lists that contain the same tags up to
element order produce the same key, provided any two tags with equal
lower-casings are identical strings; case differences and duplication are NOT
canonicalized away. -/
theorem getTagKey_order_invariant (l₁ l₂ : List String)
    (hperm : l₁.Perm l₂)
    (hinj : ∀ a ∈ l₁, ∀ b ∈ l₁, lowerStr a = lowerStr b → a = b) :
    getTagKey l₁ = getTagKey l₂ := by
  unfold getTagKey
  congr 1
  haveI : IsTotal String (fun a b => tagLe a b = true) := ⟨tagLe_total⟩
  haveI : IsTrans String (fun a b => tagLe a b = true) := ⟨tagLe_trans⟩
  have hp1 := List.perm_insertionSort (fun a b => tagLe a b = true) l₁
  have hp2 := List.perm_insertionSort (fun a b => tagLe a b = true) l₂
  refine sorted_tie_inj_eq _ _ (hp1.trans (hperm.trans hp2.symm))
    (List.sorted_insertionSort _ l₁) (List.sorted_insertionSort _ l₂) ?_
  intro x hx y hy hxy
  exact hinj x (hp1.mem_iff.mp hx) y (hp1.mem_iff.mp hy) hxy

/-- C1 witness: a concrete permuted pair with distinct lower-casings. -/
theorem getTagKey_order_invariant_witness :
    getTagKey ["Zeta", "alpha"] = getTagKey ["alpha", "Zeta"] :=
  getTagKey_order_invariant ["Zeta", "alpha"] ["alpha", "Zeta"]
    (by decide) (by decide)

/-! ## DanbooruPoller.pollTag (src/src/DiscordFeed.ts, lines 429-471)

The poll cycle is embedded as a pure function of the stored cursor and of the
fetch outcome.  A fetch failure is the thrown/rejected branch of the `try`.
Each raw post carries a `malformed` flag: `parseDanbooruPost` throws when a
required field is undefined, which aborts the publish loop before
`saveLastIdForTag` runs.  The published list models the sequence of
`emitNewImage` calls for the polled tag key, in order. -/

structure RawPost where
  id : Nat
  malformed : Bool
deriving DecidableEq

inductive FetchResult where
  | fetchFailure
  | fetched (batch : List RawPost)
deriving DecidableEq

/-- `response.data.filter(img => img.id > lastId).sort((a, b) => a.id - b.id)`. -/
def selectNew (cursor : Nat) (batch : List RawPost) : List RawPost :=
  List.insertionSort (fun a b => a.id ≤ b.id) (batch.filter (fun p => cursor < p.id))

/-- The `for (const post of rawPosts)` loop: parse (abort on a malformed post),
emit, and accumulate `maxId`.  Returns the emitted posts, the final `maxId`,
and whether the loop completed without throwing. -/
def publishLoop : List RawPost → Nat → List RawPost × Nat × Bool
  | [], maxId => ([], maxId, true)
  | p :: rest, maxId =>
    if p.malformed then ([], maxId, false)
    else
      let r := publishLoop rest (max maxId p.id)
      (p :: r.1, r.2.1, r.2.2)

/-- One poll cycle: returns the posts published on the bus and the cursor that
is stored afterwards (`saveLastIdForTag` runs only when posts were found and
the loop completed; otherwise the stored value is unchanged). -/
def pollTag (cursor : Nat) (res : FetchResult) : List RawPost × Nat :=
  match res with
  | .fetchFailure => ([], cursor)
  | .fetched batch =>
    let raw := selectNew cursor batch
    if raw.isEmpty then ([], cursor)
    else
      let r := publishLoop raw cursor
      (r.1, if r.2.2 then r.2.1 else cursor)

def maxIdOf (batch : List RawPost) : Nat :=
  batch.foldr (fun p acc => max p.id acc) 0

/-- Stored cursor after a sequence of poll cycles with the given outcomes. -/
def pollSeq (cursor : Nat) (results : List FetchResult) : Nat :=
  results.foldl (fun c r => (pollTag c r).2) cursor

theorem publishLoop_clean (l : List RawPost) (hok : ∀ p ∈ l, p.malformed = false) :
    ∀ m, publishLoop l m = (l, max m (maxIdOf l), true) := by
  induction l with
  | nil => intro m; simp [publishLoop, maxIdOf]
  | cons p rest ih =>
    intro m
    have hp : p.malformed = false := hok p (List.mem_cons_self p rest)
    have hrest : ∀ q ∈ rest, q.malformed = false := fun q hq =>
      hok q (List.mem_cons.mpr (Or.inr hq))
    simp only [publishLoop, hp, Bool.false_eq_true, if_false, ih hrest]
    simp [maxIdOf, Nat.max_assoc]

theorem publishLoop_malformed (l : List RawPost) :
    ∀ m, (∃ p ∈ l, p.malformed = true) → (publishLoop l m).2.2 = false := by
  induction l with
  | nil => intro m h; simp at h
  | cons p rest ih =>
    intro m h
    by_cases hp : p.malformed = true
    · simp [publishLoop, hp]
    · have : ∃ q ∈ rest, q.malformed = true := by
        rcases h with ⟨q, hq, hqm⟩
        rcases List.mem_cons.mp hq with rfl | hq'
        · exact absurd hqm hp
        · exact ⟨q, hq', hqm⟩
      simp [publishLoop, hp, ih (max m p.id) this]

theorem publishLoop_le (l : List RawPost) : ∀ m, m ≤ (publishLoop l m).2.1 := by
  induction l with
  | nil => intro m; simp [publishLoop]
  | cons p rest ih =>
    intro m
    by_cases hp : p.malformed = true
    · simp [publishLoop, hp]
    · simp only [publishLoop, hp]
      simp only [Bool.false_eq_true, if_false]
      exact le_trans (Nat.le_max_left m p.id) (ih (max m p.id))

theorem maxIdOf_perm {l₁ l₂ : List RawPost} (h : l₁.Perm l₂) :
    maxIdOf l₁ = maxIdOf l₂ := by
  induction h with
  | nil => rfl
  | cons x _ ih => simp [maxIdOf] at ih ⊢; rw [ih]
  | swap x y l =>
    simp [maxIdOf, ← Nat.max_assoc, Nat.max_comm y.id x.id]
  | trans _ _ ih1 ih2 => exact ih1.trans ih2

theorem max_maxIdOf_filter (cursor : Nat) (batch : List RawPost) :
    max cursor (maxIdOf (batch.filter (fun p => cursor < p.id))) =
      max cursor (maxIdOf batch) := by
  induction batch with
  | nil => rfl
  | cons p rest ih =>
    by_cases hp : cursor < p.id
    · have hf : (p :: rest).filter (fun q => cursor < q.id) =
          p :: rest.filter (fun q => cursor < q.id) := by
        simp [List.filter_cons, hp]
      rw [hf]
      show max cursor (max p.id (maxIdOf (rest.filter fun q => cursor < q.id))) =
        max cursor (max p.id (maxIdOf rest))
      rw [max_left_comm cursor p.id (maxIdOf (rest.filter fun q => cursor < q.id)),
        max_left_comm cursor p.id (maxIdOf rest), ih]
    · have hf : (p :: rest).filter (fun q => cursor < q.id) =
          rest.filter (fun q => cursor < q.id) := by
        simp [List.filter_cons, hp]
      rw [hf, ih]
      show max cursor (maxIdOf rest) = max cursor (max p.id (maxIdOf rest))
      rw [← max_assoc, max_eq_left (Nat.le_of_not_lt hp)]

theorem maxIdOf_le {c : Nat} {l : List RawPost} (h : ∀ p ∈ l, p.id ≤ c) :
    maxIdOf l ≤ c := by
  induction l with
  | nil => simp [maxIdOf]
  | cons p rest ih =>
    simp only [maxIdOf, List.foldr_cons]
    exact Nat.max_le.mpr ⟨h p (List.mem_cons_self p rest),
      ih (fun q hq => h q (List.mem_cons.mpr (Or.inr hq)))⟩

/-- C2: after a poll with stored cursor `c` and a fetched batch of well-formed
posts, every returned item with id at most `c` is not published, every other
returned item is published, the published sequence is exactly the filtered
batch sorted ascending by id, and the stored cursor afterwards equals
`max c (highest id seen in the batch)`. -/
theorem pollTag_poll_spec (cursor : Nat) (batch : List RawPost)
    (hok : ∀ p ∈ batch, p.malformed = false) :
    (pollTag cursor (.fetched batch)).1 = selectNew cursor batch ∧
    (∀ p ∈ batch, p.id ≤ cursor → p ∉ (pollTag cursor (.fetched batch)).1) ∧
    (∀ p ∈ batch, cursor < p.id → p ∈ (pollTag cursor (.fetched batch)).1) ∧
    ((pollTag cursor (.fetched batch)).1.Sorted (fun a b => a.id ≤ b.id)) ∧
    (pollTag cursor (.fetched batch)).2 = max cursor (maxIdOf batch) := by
  have hperm : (selectNew cursor batch).Perm (batch.filter (fun p => cursor < p.id)) :=
    List.perm_insertionSort _ _
  by_cases hemp : (selectNew cursor batch).isEmpty
  · have hraw : selectNew cursor batch = [] := List.isEmpty_iff.mp hemp
    have hfilt : batch.filter (fun p => cursor < p.id) = [] :=
      List.Perm.eq_nil (hraw ▸ hperm.symm)
    have hnone : ∀ p ∈ batch, ¬ cursor < p.id := by
      intro p hp hlt
      have : p ∈ batch.filter (fun p => cursor < p.id) :=
        List.mem_filter.mpr ⟨hp, by simpa using hlt⟩
      simp [hfilt] at this
    refine ⟨?_, ?_, ?_, ?_, ?_⟩
    · simp [pollTag, hemp, hraw]
    · intro p _ _; simp [pollTag, hemp]
    · intro p hp hlt; exact absurd hlt (hnone p hp)
    · simp [pollTag, hemp]
    · have : maxIdOf batch ≤ cursor :=
        maxIdOf_le (fun p hp => Nat.le_of_not_lt (hnone p hp))
      simp [pollTag, hemp, Nat.max_eq_left this]
  · have hokraw : ∀ p ∈ selectNew cursor batch, p.malformed = false := by
      intro p hp
      exact hok p (List.mem_filter.mp (hperm.mem_iff.mp hp)).1
    have hclean := publishLoop_clean (selectNew cursor batch) hokraw cursor
    refine ⟨?_, ?_, ?_, ?_, ?_⟩
    · simp [pollTag, hemp, hclean]
    · intro p hp hple
      simp only [pollTag, hemp, if_false, Bool.false_eq_true, hclean]
      intro hmem
      have : cursor < p.id := by
        simpa using (List.mem_filter.mp (hperm.mem_iff.mp hmem)).2
      omega
    · intro p hp hlt
      simp only [pollTag, hemp, if_false, Bool.false_eq_true, hclean]
      exact hperm.mem_iff.mpr (List.mem_filter.mpr ⟨hp, by simpa using hlt⟩)
    · haveI : IsTotal RawPost (fun a b => a.id ≤ b.id) := ⟨fun a b => Nat.le_total a.id b.id⟩
      haveI : IsTrans RawPost (fun a b => a.id ≤ b.id) :=
        ⟨fun a b c => Nat.le_trans⟩
      simp only [pollTag, hemp, if_false, Bool.false_eq_true, hclean]
      exact List.sorted_insertionSort _ _
    · simp only [pollTag, hemp, if_false, Bool.false_eq_true, hclean, if_true]
      rw [maxIdOf_perm hperm, max_maxIdOf_filter]

/-- C2 witness: cursor 100, batch with ids 103, 101, 102 out of order plus a
stale id 95; the published cursor reaches 103. -/
theorem pollTag_poll_spec_witness :
    (∀ p ∈ [RawPost.mk 103 false, RawPost.mk 101 false,
             RawPost.mk 102 false, RawPost.mk 95 false], p.malformed = false) ∧
    (pollTag 100 (.fetched [RawPost.mk 103 false, RawPost.mk 101 false,
        RawPost.mk 102 false, RawPost.mk 95 false])).2 =
      max 100 (maxIdOf [RawPost.mk 103 false, RawPost.mk 101 false,
        RawPost.mk 102 false, RawPost.mk 95 false]) :=
  ⟨by decide, (pollTag_poll_spec 100 _ (by decide)).2.2.2.2⟩

/-- C3: the stored cursor never decreases across any sequence of polls; a
fetch failure leaves it unchanged, and so does a parse failure occurring
during the publish loop. -/
theorem cursor_monotone (cursor : Nat) (results : List FetchResult) :
    cursor ≤ pollSeq cursor results ∧
    (pollTag cursor .fetchFailure).2 = cursor ∧
    (∀ batch, (∃ p ∈ selectNew cursor batch, p.malformed = true) →
      (pollTag cursor (.fetched batch)).2 = cursor) := by
  have hstep : ∀ c r, c ≤ (pollTag c r).2 := by
    intro c r
    cases r with
    | fetchFailure => simp [pollTag]
    | fetched batch =>
      by_cases hemp : (selectNew c batch).isEmpty
      · simp [pollTag, hemp]
      · simp only [pollTag, hemp, if_false, Bool.false_eq_true]
        by_cases hok : (publishLoop (selectNew c batch) c).2.2 = true
        · simpa [hok] using publishLoop_le (selectNew c batch) c
        · simp [hok]
  refine ⟨?_, by simp [pollTag], ?_⟩
  · induction results generalizing cursor with
    | nil => simp [pollSeq]
    | cons r rest ih =>
      calc cursor ≤ (pollTag cursor r).2 := hstep cursor r
        _ ≤ pollSeq (pollTag cursor r).2 rest := ih _
        _ = pollSeq cursor (r :: rest) := by simp [pollSeq]
  · intro batch hbad
    by_cases hemp : (selectNew cursor batch).isEmpty
    · simp [pollTag, hemp]
    · have := publishLoop_malformed (selectNew cursor batch) cursor hbad
      simp [pollTag, hemp, this]

/-- C3 witness: a successful poll advances from 5, a failure keeps 5, and a
batch whose selected post is malformed keeps 5. -/
theorem cursor_monotone_witness :
    5 ≤ pollSeq 5 [FetchResult.fetched [RawPost.mk 6 false], FetchResult.fetchFailure] ∧
    (pollTag 5 (.fetched [RawPost.mk 7 true])).2 = 5 :=
  ⟨(cursor_monotone 5 _).1, (cursor_monotone 5 []).2.2 [RawPost.mk 7 true] (by decide)⟩

/-! ## DanbooruPoller tag configuration (src/src/DiscordFeed.ts)

`tagConfigs : Map<string, TagConfig>` is embedded as an association list with
`Map.get`/`Map.set` semantics (set replaces in place, else appends).
`addFeed` is the runtime registration path (lines 343-356); `addFeedConfigs`
is the initial-configuration path of the earlier constructor-based poller
(lines 133-145).  JavaScript truthiness of
`existingInterval = tagConfigs.get(tagKey)?.pollIntervalMs` is modelled
explicitly: `undefined` (key absent) and `0` are both falsy, so the absent
case is folded into the default `0`. -/

structure TagConfig where
  pollIntervalMs : Nat
  batchSize : Nat
deriving DecidableEq

structure PollerFeedConfig where
  tags : List String
  pollingIntervalMs : Option Nat
  batchSize : Option Nat
deriving DecidableEq

def lookupTC : List (String × TagConfig) → String → Option TagConfig
  | [], _ => none
  | e :: rest, k => if e.1 = k then some e.2 else lookupTC rest k

def setTC (m : List (String × TagConfig)) (k : String) (v : TagConfig) :
    List (String × TagConfig) :=
  if (lookupTC m k).isSome then
    m.map (fun e => if e.1 = k then (k, v) else e)
  else
    m ++ [(k, v)]

/-- `addFeed` (runtime path): `this.tagConfigs.set(tagKey, {...})`
unconditionally overwrites the entry for the tag key. -/
def addFeed (m : List (String × TagConfig)) (fc : PollerFeedConfig) :
    List (String × TagConfig) :=
  setTC m (getTagKey fc.tags) ⟨fc.pollingIntervalMs.getD 30000, fc.batchSize.getD 3⟩

/-- `addFeedConfigs` body for one feed config: keep the existing entry when
`existingInterval && existingInterval < newInterval`, otherwise set. -/
def addFeedConfig (m : List (String × TagConfig)) (fc : PollerFeedConfig) :
    List (String × TagConfig) :=
  if ((lookupTC m (getTagKey fc.tags)).map TagConfig.pollIntervalMs).getD 0 ≠ 0 ∧
      ((lookupTC m (getTagKey fc.tags)).map TagConfig.pollIntervalMs).getD 0 <
        fc.pollingIntervalMs.getD 30000 then
    m
  else
    setTC m (getTagKey fc.tags) ⟨fc.pollingIntervalMs.getD 30000, fc.batchSize.getD 3⟩

def addFeedConfigs (m : List (String × TagConfig)) (fcs : List PollerFeedConfig) :
    List (String × TagConfig) :=
  fcs.foldl addFeedConfig m

theorem lookupTC_map_set (k : String) (v : TagConfig) :
    ∀ m : List (String × TagConfig), (lookupTC m k).isSome →
      lookupTC (m.map (fun e => if e.1 = k then (k, v) else e)) k = some v := by
  intro m
  induction m with
  | nil => intro h; simp [lookupTC] at h
  | cons e rest ih =>
    intro h
    by_cases he : e.1 = k
    · simp [lookupTC, he]
    · have hrest : (lookupTC rest k).isSome := by simpa [lookupTC, he] using h
      simpa [lookupTC, he] using ih hrest

theorem lookupTC_append_absent (k : String) (v : TagConfig) :
    ∀ m : List (String × TagConfig), lookupTC m k = none →
      lookupTC (m ++ [(k, v)]) k = some v := by
  intro m
  induction m with
  | nil => intro _; simp [lookupTC]
  | cons e rest ih =>
    intro h
    by_cases he : e.1 = k
    · simp [lookupTC, he] at h
    · have hrest : lookupTC rest k = none := by simpa [lookupTC, he] using h
      simpa [lookupTC, he] using ih hrest

theorem lookupTC_setTC (m : List (String × TagConfig)) (k : String) (v : TagConfig) :
    lookupTC (setTC m k v) k = some v := by
  unfold setTC
  by_cases h : (lookupTC m k).isSome
  · rw [if_pos h]; exact lookupTC_map_set k v m h
  · rw [if_neg h]
    exact lookupTC_append_absent k v m (Option.not_isSome_iff_eq_none.mp h)

theorem lookupTC_none_forall (k : String) :
    ∀ m : List (String × TagConfig), lookupTC m k = none → ∀ e ∈ m, e.1 ≠ k := by
  intro m
  induction m with
  | nil => intro _ e he; simp at he
  | cons e rest ih =>
    intro h f hf
    by_cases he : e.1 = k
    · simp [lookupTC, he] at h
    · have hrest : lookupTC rest k = none := by simpa [lookupTC, he] using h
      rcases List.mem_cons.mp hf with rfl | hf'
      · exact he
      · exact ih hrest f hf'

theorem keys_setTC (m : List (String × TagConfig)) (k : String) (v : TagConfig)
    (hnd : (m.map Prod.fst).Nodup) :
    ((setTC m k v).map Prod.fst).Nodup := by
  unfold setTC
  by_cases h : (lookupTC m k).isSome
  · rw [if_pos h]
    have hkeys : (m.map (fun e => if e.1 = k then (k, v) else e)).map Prod.fst
        = m.map Prod.fst := by
      rw [List.map_map]
      refine List.map_congr_left ?_
      intro e _
      by_cases he : e.1 = k <;> simp [he]
    rw [hkeys]; exact hnd
  · rw [if_neg h]
    have hnone : lookupTC m k = none := Option.not_isSome_iff_eq_none.mp h
    have hk : k ∉ m.map Prod.fst := by
      intro hmem
      rcases List.mem_map.mp hmem with ⟨e, hem, hfst⟩
      exact lookupTC_none_forall k m hnone e hem hfst
    simp only [List.map_append, List.map_cons, List.map_nil]
    refine List.nodup_append.mpr ⟨hnd, List.nodup_singleton k, ?_⟩
    intro a ha hak
    exact hk ((List.mem_singleton.mp hak) ▸ ha)

theorem keys_addFeedConfig (m : List (String × TagConfig)) (fc : PollerFeedConfig)
    (hnd : (m.map Prod.fst).Nodup) :
    ((addFeedConfig m fc).map Prod.fst).Nodup := by
  unfold addFeedConfig
  by_cases hc : ((lookupTC m (getTagKey fc.tags)).map TagConfig.pollIntervalMs).getD 0 ≠ 0 ∧
      ((lookupTC m (getTagKey fc.tags)).map TagConfig.pollIntervalMs).getD 0 <
        fc.pollingIntervalMs.getD 30000
  · rw [if_pos hc]; exact hnd
  · rw [if_neg hc]; exact keys_setTC m _ _ hnd

theorem keys_addFeedConfigs (fcs : List PollerFeedConfig) :
    ∀ m, (m.map Prod.fst).Nodup → ((addFeedConfigs m fcs).map Prod.fst).Nodup := by
  induction fcs with
  | nil => intro m hnd; exact hnd
  | cons fc rest ih =>
    intro m hnd
    exact ih _ (keys_addFeedConfig m fc hnd)

theorem addFeedConfigs_min_aux (rest : List PollerFeedConfig) :
    ∀ (m : List (String × TagConfig)) (k : String) (cfg : TagConfig),
      lookupTC m k = some cfg → 0 < cfg.pollIntervalMs →
      (∀ f ∈ rest, getTagKey f.tags = k) →
      (∀ f ∈ rest, 0 < f.pollingIntervalMs.getD 30000) →
      ∃ cfg', lookupTC (addFeedConfigs m rest) k = some cfg' ∧
        0 < cfg'.pollIntervalMs ∧
        cfg'.pollIntervalMs ≤ cfg.pollIntervalMs ∧
        (∀ f ∈ rest, cfg'.pollIntervalMs ≤ f.pollingIntervalMs.getD 30000) ∧
        (cfg'.pollIntervalMs = cfg.pollIntervalMs ∨
          ∃ f ∈ rest, cfg'.pollIntervalMs = f.pollingIntervalMs.getD 30000) := by
  induction rest with
  | nil =>
    intro m k cfg hl hpos _ _
    exact ⟨cfg, hl, hpos, le_refl _, by simp, Or.inl rfl⟩
  | cons f rest ih =>
    intro m k cfg hl hpos hk hfpos
    have hkf : getTagKey f.tags = k := hk f (List.mem_cons_self f rest)
    have hstep : addFeedConfigs m (f :: rest) =
        addFeedConfigs (addFeedConfig m f) rest := rfl
    rw [hstep]
    have hkrest : ∀ g ∈ rest, getTagKey g.tags = k := fun g hg =>
      hk g (List.mem_cons.mpr (Or.inr hg))
    have hposrest : ∀ g ∈ rest, 0 < g.pollingIntervalMs.getD 30000 := fun g hg =>
      hfpos g (List.mem_cons.mpr (Or.inr hg))
    have hex : ((lookupTC m (getTagKey f.tags)).map TagConfig.pollIntervalMs).getD 0
        = cfg.pollIntervalMs := by rw [hkf, hl]; rfl
    by_cases hc : cfg.pollIntervalMs ≠ 0 ∧
        cfg.pollIntervalMs < f.pollingIntervalMs.getD 30000
    · have hmid : addFeedConfig m f = m := by
        unfold addFeedConfig
        rw [hex, if_pos hc]
      rw [hmid]
      rcases ih m k cfg hl hpos hkrest hposrest with
        ⟨cfg', hl', hp', hle', hall', hsrc'⟩
      refine ⟨cfg', hl', hp', hle', ?_, ?_⟩
      · intro g hg
        rcases List.mem_cons.mp hg with rfl | hg'
        · exact le_trans hle' (le_of_lt hc.2)
        · exact hall' g hg'
      · rcases hsrc' with h | ⟨g, hg, hge⟩
        · exact Or.inl h
        · exact Or.inr ⟨g, List.mem_cons.mpr (Or.inr hg), hge⟩
    · have hmid : addFeedConfig m f = setTC m k
          ⟨f.pollingIntervalMs.getD 30000, f.batchSize.getD 3⟩ := by
        unfold addFeedConfig
        rw [hex, if_neg hc, hkf]
      have hnle : f.pollingIntervalMs.getD 30000 ≤ cfg.pollIntervalMs := by
        rcases Decidable.not_and_iff_or_not.mp hc with h | h <;> omega
      rw [hmid]
      have hl2 : lookupTC (setTC m k ⟨f.pollingIntervalMs.getD 30000, f.batchSize.getD 3⟩) k
          = some ⟨f.pollingIntervalMs.getD 30000, f.batchSize.getD 3⟩ := lookupTC_setTC m k _
      have hfp : 0 < f.pollingIntervalMs.getD 30000 := hfpos f (List.mem_cons_self f rest)
      rcases ih _ k ⟨f.pollingIntervalMs.getD 30000, f.batchSize.getD 3⟩ hl2 hfp
          hkrest hposrest with ⟨cfg', hl', hp', hle', hall', hsrc'⟩
      refine ⟨cfg', hl', hp', le_trans hle' hnle, ?_, ?_⟩
      · intro g hg
        rcases List.mem_cons.mp hg with rfl | hg'
        · exact hle'
        · exact hall' g hg'
      · rcases hsrc' with h | ⟨g, hg, hge⟩
        · exact Or.inr ⟨f, List.mem_cons_self f rest, h⟩
        · exact Or.inr ⟨g, List.mem_cons.mpr (Or.inr hg), hge⟩

/-- C4 counterexample: two feeds sharing the tag key, added through the
runtime `addFeed` path with intervals 1000 then 2000; the stored effective
interval is 2000, the interval of the last writer, not the minimum 1000. -/
theorem coalescing_counterexample :
    lookupTC (addFeed (addFeed [] ⟨["t"], some 1000, none⟩) ⟨["t"], some 2000, none⟩)
        (getTagKey ["t"]) = some ⟨2000, 3⟩ ∧
    min 1000 2000 ≠ 2000 := by decide

/-- C4 (amended): each tag key has at most one scheduler entry under both
registration paths.  In the initial-configuration path (`addFeedConfigs`),
when every feed of the batch shares the key and requests a positive interval,
the stored interval is the minimum requested.  In the runtime path
(`addFeed`), the stored entry is simply that of the most recently added feed,
so the minimum is NOT recomputed there (nor on update or removal). -/
theorem coalescing_amended (fc0 : PollerFeedConfig) (rest : List PollerFeedConfig)
    (k : String) (m : List (String × TagConfig)) (fc : PollerFeedConfig)
    (hk : ∀ f ∈ fc0 :: rest, getTagKey f.tags = k)
    (hpos : ∀ f ∈ fc0 :: rest, 0 < f.pollingIntervalMs.getD 30000)
    (hnd : (m.map Prod.fst).Nodup) :
    ((addFeed m fc).map Prod.fst).Nodup ∧
    ((addFeedConfigs m (fc0 :: rest)).map Prod.fst).Nodup ∧
    (∃ cfg, lookupTC (addFeedConfigs [] (fc0 :: rest)) k = some cfg ∧
      (∀ f ∈ fc0 :: rest, cfg.pollIntervalMs ≤ f.pollingIntervalMs.getD 30000) ∧
      (∃ f ∈ fc0 :: rest, cfg.pollIntervalMs = f.pollingIntervalMs.getD 30000)) ∧
    lookupTC (addFeed m fc) (getTagKey fc.tags) =
      some ⟨fc.pollingIntervalMs.getD 30000, fc.batchSize.getD 3⟩ := by
  refine ⟨keys_setTC m _ _ hnd, keys_addFeedConfigs _ m hnd, ?_, lookupTC_setTC m _ _⟩
  have hstep : addFeedConfigs [] (fc0 :: rest) =
      addFeedConfigs (addFeedConfig [] fc0) rest := rfl
  have hfirst : addFeedConfig [] fc0 = setTC [] k
      ⟨fc0.pollingIntervalMs.getD 30000, fc0.batchSize.getD 3⟩ := by
    unfold addFeedConfig
    rw [hk fc0 (List.mem_cons_self fc0 rest)]
    simp [lookupTC]
  have hl0 : lookupTC (addFeedConfig [] fc0) k =
      some ⟨fc0.pollingIntervalMs.getD 30000, fc0.batchSize.getD 3⟩ := by
    rw [hfirst]; exact lookupTC_setTC [] k _
  rcases addFeedConfigs_min_aux rest (addFeedConfig [] fc0) k _ hl0
      (hpos fc0 (List.mem_cons_self fc0 rest))
      (fun g hg => hk g (List.mem_cons.mpr (Or.inr hg)))
      (fun g hg => hpos g (List.mem_cons.mpr (Or.inr hg))) with
    ⟨cfg', hl', _, hle', hall', hsrc'⟩
  refine ⟨cfg', by rw [hstep]; exact hl', ?_, ?_⟩
  · intro g hg
    rcases List.mem_cons.mp hg with rfl | hg'
    · exact hle'
    · exact hall' g hg'
  · rcases hsrc' with h | ⟨g, hg, hge⟩
    · exact ⟨fc0, List.mem_cons_self fc0 rest, h⟩
    · exact ⟨g, List.mem_cons.mpr (Or.inr hg), hge⟩

/-- C4 witness: three feeds sharing tag key "t" with intervals 3000, 1000,
2000 through the initial path; and one runtime add on an empty table. -/
theorem coalescing_amended_witness :
    (∀ f ∈ [PollerFeedConfig.mk ["t"] (some 3000) none,
            PollerFeedConfig.mk ["t"] (some 1000) none,
            PollerFeedConfig.mk ["t"] (some 2000) none], getTagKey f.tags = getTagKey ["t"]) ∧
    (∃ cfg, lookupTC (addFeedConfigs []
        [PollerFeedConfig.mk ["t"] (some 3000) none,
         PollerFeedConfig.mk ["t"] (some 1000) none,
         PollerFeedConfig.mk ["t"] (some 2000) none]) (getTagKey ["t"]) = some cfg ∧
      (∀ f ∈ [PollerFeedConfig.mk ["t"] (some 3000) none,
              PollerFeedConfig.mk ["t"] (some 1000) none,
              PollerFeedConfig.mk ["t"] (some 2000) none],
        cfg.pollIntervalMs ≤ f.pollingIntervalMs.getD 30000) ∧
      (∃ f ∈ [PollerFeedConfig.mk ["t"] (some 3000) none,
              PollerFeedConfig.mk ["t"] (some 1000) none,
              PollerFeedConfig.mk ["t"] (some 2000) none],
        cfg.pollIntervalMs = f.pollingIntervalMs.getD 30000)) :=
  ⟨by decide,
    (coalescing_amended (PollerFeedConfig.mk ["t"] (some 3000) none)
      [PollerFeedConfig.mk ["t"] (some 1000) none,
       PollerFeedConfig.mk ["t"] (some 2000) none]
      (getTagKey ["t"]) [] (PollerFeedConfig.mk ["t"] (some 1000) none)
      (by decide) (by decide) (by decide)).2.2.1⟩

/-! ## DedupeCache (src/unnamed/part_001)

`cache : Map<string, number>` maps a claim key to its expiry timestamp.
`tryAdd` checks only `cache.has(key)` — it never compares the stored expiry
against the current time.  Expired entries are removed solely by the periodic
`cleanup` sweep, which the constructor schedules every 60000 ms.  Time is an
explicit `now` parameter (the value of `Date.now()`). -/

def oneDayMs : Nat := 1000 * 60 * 60 * 24

/-- Sweep period installed by the constructor:
`setInterval(() => this.cleanup(), 60000)`. -/
def cleanupIntervalMs : Nat := 60000

def lookupCache : List (String × Nat) → String → Option Nat
  | [], _ => none
  | e :: rest, k => if e.1 = k then some e.2 else lookupCache rest k

/-- `tryAdd(key)`: false when the key is present (regardless of expiry),
otherwise record `now + ttl` and return true. -/
def tryAdd (c : List (String × Nat)) (ttl now : Nat) (k : String) :
    Bool × List (String × Nat) :=
  if (lookupCache c k).isSome then (false, c)
  else (true, c ++ [(k, now + ttl)])

/-- `cleanup()`: delete every entry whose expiry is strictly before `now`. -/
def cleanup (c : List (String × Nat)) (now : Nat) : List (String × Nat) :=
  c.filter (fun e => !(e.2 < now))

theorem lookupCache_none_iff (k : String) :
    ∀ c : List (String × Nat), lookupCache c k = none ↔ k ∉ c.map Prod.fst := by
  intro c
  induction c with
  | nil => simp [lookupCache]
  | cons e rest ih =>
    by_cases he : e.1 = k
    · simp [lookupCache, he]
    · simp [lookupCache, he, ih, Ne.symm he]

theorem lookupCache_append_absent (k : String) (x : Nat) :
    ∀ c : List (String × Nat), lookupCache c k = none →
      lookupCache (c ++ [(k, x)]) k = some x := by
  intro c
  induction c with
  | nil => intro _; simp [lookupCache]
  | cons e rest ih =>
    intro h
    by_cases he : e.1 = k
    · simp [lookupCache, he] at h
    · have hrest : lookupCache rest k = none := by simpa [lookupCache, he] using h
      simpa [lookupCache, he] using ih hrest

theorem lookupCache_cleanup (k : String) (t : Nat) :
    ∀ c : List (String × Nat), (c.map Prod.fst).Nodup →
      lookupCache (cleanup c t) k =
        match lookupCache c k with
        | some e => if e < t then none else some e
        | none => none := by
  intro c
  induction c with
  | nil => intro _; rfl
  | cons e rest ih =>
    intro hnd
    have hndrest : (rest.map Prod.fst).Nodup := (List.nodup_cons.mp hnd).2
    by_cases hexp : e.2 < t
    · have hstep : cleanup (e :: rest) t = cleanup rest t := by
        simp [cleanup, List.filter_cons, hexp]
      rw [hstep]
      by_cases he : e.1 = k
      · have hknotin : k ∉ rest.map Prod.fst := he ▸ (List.nodup_cons.mp hnd).1
        have hrest : lookupCache rest k = none := (lookupCache_none_iff k rest).mpr hknotin
        have hsub : k ∉ (cleanup rest t).map Prod.fst := by
          intro hmem
          have hsubl : (cleanup rest t).Sublist rest := List.filter_sublist rest
          exact hknotin ((hsubl.map Prod.fst).subset hmem)
        have : lookupCache (cleanup rest t) k = none :=
          (lookupCache_none_iff k (cleanup rest t)).mpr hsub
        simp [lookupCache, he, this, hexp]
      · rw [ih hndrest]
        simp [lookupCache, he]
    · have hstep : cleanup (e :: rest) t = e :: cleanup rest t := by
        simp [cleanup, List.filter_cons, hexp]
      rw [hstep]
      by_cases he : e.1 = k
      · simp [lookupCache, he, hexp]
      · rw [lookupCache, if_neg he, ih hndrest]
        simp [lookupCache, he]

/-- C7 counterexample: a key claimed at time 0 with time-to-live 10 has
expired by time 11, yet a repeat presentation at time 11 still returns false,
because `tryAdd` only tests presence and no sweep has run. -/
theorem dedupe_claim_counterexample :
    ((tryAdd [] 10 0 "k").1 = true) ∧
    (lookupCache (tryAdd [] 10 0 "k").2 "k" = some 10) ∧
    ((tryAdd (tryAdd [] 10 0 "k").2 10 11 "k").1 = false) := by decide

/-- C7 (amended): tryClaim (`tryAdd`) returns true exactly when the key is
absent from the cache, regardless of expiry; a fresh claim stores expiry
`now + ttl`; the sweep (scheduled every 60000 ms) removes exactly the entries
with expiry before the sweep time, so a repeat returns true again only once a
sweep later than the expiry has run, and keeps returning false after a sweep
that precedes the expiry. -/
theorem dedupe_claim_amended (c : List (String × Nat)) (ttl now now' t e : Nat)
    (k : String) (hnd : (c.map Prod.fst).Nodup) :
    ((tryAdd c ttl now k).1 = (lookupCache c k).isNone) ∧
    (lookupCache c k = none → lookupCache (tryAdd c ttl now k).2 k = some (now + ttl)) ∧
    (lookupCache c k = some e → e < t → (tryAdd (cleanup c t) ttl now' k).1 = true) ∧
    (lookupCache c k = some e → ¬ e < t → (tryAdd (cleanup c t) ttl now' k).1 = false) ∧
    cleanupIntervalMs = 60000 := by
  refine ⟨?_, ?_, ?_, ?_, rfl⟩
  · by_cases h : (lookupCache c k).isSome
    · rcases Option.isSome_iff_exists.mp h with ⟨v, hv⟩
      simp [tryAdd, h, hv]
    · have := Option.not_isSome_iff_eq_none.mp h
      simp [tryAdd, h, this]
  · intro hnone
    have hfalse : (lookupCache c k).isSome = false := by simp [hnone]
    simp only [tryAdd, hfalse, Bool.false_eq_true, if_false]
    exact lookupCache_append_absent k (now + ttl) c hnone
  · intro hsome hlt
    have hcl : lookupCache (cleanup c t) k = none := by
      rw [lookupCache_cleanup k t c hnd, hsome]
      simp [hlt]
    simp [tryAdd, hcl]
  · intro hsome hge
    have hcl : lookupCache (cleanup c t) k = some e := by
      rw [lookupCache_cleanup k t c hnd, hsome]
      simp [hge]
    simp [tryAdd, hcl]

/-- C7 witness: one entry with expiry 10; a sweep at time 11 frees the key,
a sweep at time 9 does not. -/
theorem dedupe_claim_amended_witness :
    (lookupCache [("k", 10)] "k" = some 10) ∧
    ((tryAdd (cleanup [("k", 10)] 11) 10 20 "k").1 = true) ∧
    ((tryAdd (cleanup [("k", 10)] 9) 10 20 "k").1 = false) :=
  ⟨by decide,
    (dedupe_claim_amended [("k", 10)] 10 0 20 11 10 "k" (by decide)).2.2.1
      (by decide) (by decide),
    (dedupe_claim_amended [("k", 10)] 10 0 20 9 10 "k" (by decide)).2.2.2.1
      (by decide) (by decide)⟩

/-! ## DiscordFeed.handleNewImage retry loop (src/src/DiscordFeed.ts, lines 26-63)

For each destination the loop runs `while attempts < 5`: a successful POST
breaks out, an HTTP 429 sleeps `retry_after + Math.random() * attempts`
seconds and retries, and any other error breaks out immediately.  The POST
outcome of attempt `n` and the value drawn by `Math.random()` before the
delay of attempt `n` are supplied as oracles.  Destinations are processed
independently, one after the other. -/

inductive PostResult where
  | success
  | rateLimited (retryAfter : ℚ)
  | otherError
deriving DecidableEq

inductive Outcome where
  | sent
  | abandonedError
  | exhausted
deriving DecidableEq

structure DestRun where
  responses : Nat → PostResult
  rand : Nat → ℚ

/-- The retry loop for one destination, with `fuel = 5 - attempts` remaining
iterations.  Returns the number of attempts made, the terminal outcome, and
the list of (attempt, delay-in-seconds) pairs slept through after 429s. -/
def sendLoop (d : DestRun) : Nat → Nat → Nat × Outcome × List (Nat × ℚ)
  | 0, attempt => (attempt, Outcome.exhausted, [])
  | fuel + 1, attempt =>
    match d.responses (attempt + 1) with
    | PostResult.success => (attempt + 1, Outcome.sent, [])
    | PostResult.otherError => (attempt + 1, Outcome.abandonedError, [])
    | PostResult.rateLimited ra =>
      let r := sendLoop d fuel (attempt + 1)
      (r.1, r.2.1,
        (attempt + 1, ra + d.rand (attempt + 1) * ((attempt + 1 : Nat) : ℚ)) :: r.2.2)

/-- One destination's processing: `maxAttempts = 5`. -/
def handleDestination (d : DestRun) : Nat × Outcome × List (Nat × ℚ) :=
  sendLoop d 5 0

/-- The `for (const destination of ...)` loop: destinations are handled one by
one, each independently of the others' outcomes. -/
def handleNewImage (dests : List DestRun) : List (Nat × Outcome × List (Nat × ℚ)) :=
  dests.map handleDestination

theorem sendLoop_spec (d : DestRun) (hrand : ∀ n, 0 ≤ d.rand n ∧ d.rand n < 1) :
    ∀ fuel attempt,
      attempt ≤ (sendLoop d fuel attempt).1 ∧
      (sendLoop d fuel attempt).1 ≤ attempt + fuel ∧
      ((sendLoop d fuel attempt).2.1 = Outcome.sent →
        d.responses (sendLoop d fuel attempt).1 = PostResult.success) ∧
      ((sendLoop d fuel attempt).2.1 = Outcome.abandonedError →
        d.responses (sendLoop d fuel attempt).1 = PostResult.otherError) ∧
      ((sendLoop d fuel attempt).2.1 = Outcome.exhausted →
        (sendLoop d fuel attempt).1 = attempt + fuel) ∧
      (∀ k, attempt < k → k < (sendLoop d fuel attempt).1 →
        ∃ ra, d.responses k = PostResult.rateLimited ra) ∧
      (∀ p ∈ (sendLoop d fuel attempt).2.2,
        ∃ ra, d.responses p.1 = PostResult.rateLimited ra ∧
          ra ≤ p.2 ∧ p.2 < ra + (p.1 : ℚ) ∧ attempt < p.1 ∧
          p.1 ≤ (sendLoop d fuel attempt).1) := by
  intro fuel
  induction fuel with
  | zero =>
    intro attempt
    refine ⟨le_refl _, by simp [sendLoop], ?_, ?_, ?_, ?_, ?_⟩
    · intro h; simp [sendLoop] at h
    · intro h; simp [sendLoop] at h
    · intro _; simp [sendLoop]
    · intro k h1 h2; simp [sendLoop] at h2; omega
    · intro p hp; simp [sendLoop] at hp
  | succ fuel ih =>
    intro attempt
    cases hr : d.responses (attempt + 1) with
    | success =>
      have hval : sendLoop d (fuel + 1) attempt = (attempt + 1, Outcome.sent, []) := by
        simp [sendLoop, hr]
      rw [hval]
      refine ⟨by omega, by omega, ?_, ?_, ?_, ?_, ?_⟩
      · intro _; simpa using hr
      · intro h; simp at h
      · intro h; simp at h
      · intro k h1 h2; omega
      · intro p hp; simp at hp
    | otherError =>
      have hval : sendLoop d (fuel + 1) attempt =
          (attempt + 1, Outcome.abandonedError, []) := by
        simp [sendLoop, hr]
      rw [hval]
      refine ⟨by omega, by omega, ?_, ?_, ?_, ?_, ?_⟩
      · intro h; simp at h
      · intro _; simpa using hr
      · intro h; simp at h
      · intro k h1 h2; omega
      · intro p hp; simp at hp
    | rateLimited ra =>
      have hval : sendLoop d (fuel + 1) attempt =
          ((sendLoop d fuel (attempt + 1)).1, (sendLoop d fuel (attempt + 1)).2.1,
            (attempt + 1, ra + d.rand (attempt + 1) * ((attempt + 1 : Nat) : ℚ)) ::
              (sendLoop d fuel (attempt + 1)).2.2) := by
        simp [sendLoop, hr]
      rcases ih (attempt + 1) with ⟨ih1, ih2, ih3, ih4, ih5, ih6, ih7⟩
      rw [hval]
      refine ⟨by omega, by omega, ih3, ih4, ?_, ?_, ?_⟩
      · intro h; rw [ih5 h]; omega
      · intro k h1 h2
        by_cases hk : k = attempt + 1
        · exact ⟨ra, hk ▸ hr⟩
        · exact ih6 k (by omega) h2
      · intro p hp
        rcases List.mem_cons.mp hp with rfl | hp'
        · refine ⟨ra, hr, ?_, ?_, by omega, ih1⟩
          · have h0 : (0 : ℚ) ≤ d.rand (attempt + 1) * ((attempt + 1 : Nat) : ℚ) :=
              mul_nonneg (hrand (attempt + 1)).1 (by positivity)
            show ra ≤ ra + d.rand (attempt + 1) * ((attempt + 1 : Nat) : ℚ)
            linarith
          · have hlt : d.rand (attempt + 1) * ((attempt + 1 : Nat) : ℚ) <
                ((attempt + 1 : Nat) : ℚ) := by
              have hpos : (0 : ℚ) < ((attempt + 1 : Nat) : ℚ) := by positivity
              calc d.rand (attempt + 1) * ((attempt + 1 : Nat) : ℚ)
                  < 1 * ((attempt + 1 : Nat) : ℚ) :=
                    mul_lt_mul_of_pos_right (hrand (attempt + 1)).2 hpos
                _ = ((attempt + 1 : Nat) : ℚ) := one_mul _
            show ra + d.rand (attempt + 1) * ((attempt + 1 : Nat) : ℚ) <
              ra + ((attempt + 1 : Nat) : ℚ)
            linarith
        · rcases ih7 p hp' with ⟨ra', h1', h2', h3', h4', h5'⟩
          exact ⟨ra', h1', h2', h3', by omega, h5'⟩

/-- C6: each destination is attempted at most 5 times; an outcome of Sent
means the final attempt's POST succeeded and an outcome of Abandoned means it
failed with a non-429 error (both end the attempts immediately); every
non-final attempt was a 429; every delay slept after a 429 on attempt `n` is
at least the server's `retry_after` and less than `retry_after + n`; and the
per-item processing is the independent concatenation of the per-destination
runs, so one destination's failure cannot affect another's. -/
theorem webhook_retry_spec (d : DestRun)
    (hrand : ∀ n, 0 ≤ d.rand n ∧ d.rand n < 1) :
    (handleDestination d).1 ≤ 5 ∧
    ((handleDestination d).2.1 = Outcome.sent →
      d.responses (handleDestination d).1 = PostResult.success) ∧
    ((handleDestination d).2.1 = Outcome.abandonedError →
      d.responses (handleDestination d).1 = PostResult.otherError) ∧
    ((handleDestination d).2.1 = Outcome.exhausted → (handleDestination d).1 = 5) ∧
    (∀ k, 0 < k → k < (handleDestination d).1 →
      ∃ ra, d.responses k = PostResult.rateLimited ra) ∧
    (∀ p ∈ (handleDestination d).2.2,
      ∃ ra, d.responses p.1 = PostResult.rateLimited ra ∧
        ra ≤ p.2 ∧ p.2 < ra + (p.1 : ℚ)) ∧
    (∀ pre post : List DestRun,
      handleNewImage (pre ++ d :: post) =
        handleNewImage pre ++ handleDestination d :: handleNewImage post) := by
  rcases sendLoop_spec d hrand 5 0 with ⟨h1, h2, h3, h4, h5, h6, h7⟩
  refine ⟨h2, h3, h4, h5, h6, ?_, ?_⟩
  · intro p hp
    rcases h7 p hp with ⟨ra, ha, hb, hc, _, _⟩
    exact ⟨ra, ha, hb, hc⟩
  · intro pre post
    simp [handleNewImage]

/-- Destination oracle for the C6 witness: attempt 1 is rate-limited with
`retry_after = 2`, attempt 2 succeeds; the random draw is always 1/2. -/
def dWit : DestRun :=
  ⟨fun n => if n = 1 then PostResult.rateLimited 2 else PostResult.success,
   fun _ => 1 / 2⟩

/-- C6 witness: the concrete run makes 2 attempts, is Sent, and sleeps
2 + 1/2 = 5/2 seconds after the 429. -/
theorem webhook_retry_spec_witness :
    (handleDestination dWit).1 ≤ 5 ∧
    ((handleDestination dWit).2.1 = Outcome.sent →
      dWit.responses (handleDestination dWit).1 = PostResult.success) ∧
    handleDestination dWit = (2, Outcome.sent, [(1, (5 : ℚ) / 2)]) := by
  have hrand : ∀ n, 0 ≤ dWit.rand n ∧ dWit.rand n < 1 := by
    intro n
    constructor
    · show (0 : ℚ) ≤ 1 / 2
      norm_num
    · show (1 : ℚ) / 2 < 1
      norm_num
  refine ⟨(webhook_retry_spec dWit hrand).1, (webhook_retry_spec dWit hrand).2.1, ?_⟩
  simp only [handleDestination, sendLoop, dWit]
  norm_num

/-! ## Dispatcher dedupe guard (C8)

`FeedManager.startFeed` (src/src/FeedManager.ts, lines 361-393) constructs
`new DiscordFeed(this.eventBus, config, this.dedupeCache)` and `stopFeed`
calls `feedInstance.unsubscribe()`; the matching three-argument `DiscordFeed`
is not present under src (the bundled `DiscordFeed` has a two-argument
constructor and no unsubscribe), so the guarded handler is modelled from the
specification. -/

/-- Modelled from the spec: the `DiscordFeed.handleNewImage` of the
DedupeCache-carrying dispatcher constructed by `FeedManager.startFeed`, which
is absent from src.  Per spec sections 4.4 and 4.5 the dispatcher claims the
item's dedupe key (`tryClaim`) as a guard before producing any delivery
effects; when the claim fails no destination is attempted. -/
def handleNewImageGuarded (cache : List (String × Nat)) (ttl now : Nat)
    (dedupeKey : String) (dests : List DestRun) :
    List (Nat × Outcome × List (Nat × ℚ)) × List (String × Nat) :=
  let r := tryAdd cache ttl now dedupeKey
  if r.1 then (handleNewImage dests, r.2) else ([], r.2)

/-- C8: with a fresh dedupe key the first receipt of an item produces the
full per-destination delivery runs, and a second receipt of the same key —
even after an intervening sweep, as long as the sweep ran no later than the
entry's expiry — produces no delivery effects at all. -/
theorem dedupe_guard_once (cache : List (String × Nat)) (ttl now now'' t : Nat)
    (k : String) (dests dests' : List DestRun)
    (hnd : (cache.map Prod.fst).Nodup)
    (hfresh : lookupCache cache k = none)
    (hsweep : ¬ now + ttl < t) :
    (handleNewImageGuarded cache ttl now k dests).1 = handleNewImage dests ∧
    (handleNewImageGuarded
        (cleanup (handleNewImageGuarded cache ttl now k dests).2 t)
        ttl now'' k dests').1 = [] := by
  have hfsome : (lookupCache cache k).isSome = false := by simp [hfresh]
  have h1 : (tryAdd cache ttl now k).1 = true := by
    simp [tryAdd, hfsome]
  have hc2 : (tryAdd cache ttl now k).2 = cache ++ [(k, now + ttl)] := by
    simp [tryAdd, hfsome]
  have hguard1 : (handleNewImageGuarded cache ttl now k dests) =
      (handleNewImage dests, cache ++ [(k, now + ttl)]) := by
    simp [handleNewImageGuarded, h1, hc2]
  refine ⟨by rw [hguard1], ?_⟩
  rw [hguard1]
  have hknotin : k ∉ cache.map Prod.fst := (lookupCache_none_iff k cache).mp hfresh
  have hnd' : ((cache ++ [(k, now + ttl)]).map Prod.fst).Nodup := by
    simp only [List.map_append, List.map_cons, List.map_nil]
    refine List.nodup_append.mpr ⟨hnd, List.nodup_singleton k, ?_⟩
    intro a ha hak
    exact hknotin ((List.mem_singleton.mp hak) ▸ ha)
  have hl' : lookupCache (cache ++ [(k, now + ttl)]) k = some (now + ttl) :=
    lookupCache_append_absent k (now + ttl) cache hfresh
  have hclean : lookupCache (cleanup (cache ++ [(k, now + ttl)]) t) k =
      some (now + ttl) := by
    rw [lookupCache_cleanup k t _ hnd', hl']
    simp [hsweep]
  have h2 : (tryAdd (cleanup (cache ++ [(k, now + ttl)]) t) ttl now'' k).1 = false := by
    simp [tryAdd, hclean]
  simp [handleNewImageGuarded, h2]

/-- C8 witness: key "img-1" claimed on an empty cache at time 0 with the
default 24h time-to-live; a sweep at time 1000 keeps the entry, and the
second receipt delivers nothing. -/
theorem dedupe_guard_once_witness :
    (handleNewImageGuarded [] oneDayMs 0 "img-1" [dWit]).1 = handleNewImage [dWit] ∧
    (handleNewImageGuarded
        (cleanup (handleNewImageGuarded [] oneDayMs 0 "img-1" [dWit]).2 1000)
        oneDayMs 5000 "img-1" [dWit]).1 = [] :=
  dedupe_guard_once [] oneDayMs 0 5000 1000 "img-1" [dWit] [dWit]
    (by decide) (by decide) (by decide)

/-! ## FeedManager durable registry (src/src/FeedManager.ts)

The SQLite tables `webhooks(id, name, url)`, `feeds(id, name, ...)` and
`feeds_to_webhooks(feed_id, webhook_id)` are embedded as lists of rows.
`createFeed` (lines 214-256) resolves all webhook names before its insert
transaction; `updateFeed` (lines 258-327) runs its scalar-field UPDATE
statement before it resolves the new webhook names, so only the exception
order of the source decides what is written when a name is unknown.
JavaScript truthiness of the optional update fields is modelled explicitly
(empty string and 0 are falsy; arrays, even empty ones, are truthy;
`username`/`avatarUrl` are guarded by `!== undefined`). -/

structure WebhookRow where
  wid : Nat
  name : String
  url : String
deriving DecidableEq

structure FeedRow where
  fid : Nat
  name : String
  tags : List String
  pollingIntervalMs : Option Nat
  batchSize : Option Nat
  username : Option String
  avatarUrl : Option String
deriving DecidableEq

structure RegistryDb where
  webhooks : List WebhookRow
  feeds : List FeedRow
  joins : List (Nat × Nat)
  nextFeedId : Nat
deriving DecidableEq

structure FeedCfg where
  name : String
  tags : List String
  webhookNames : List String
  pollingIntervalMs : Option Nat
  batchSize : Option Nat
  username : Option String
  avatarUrl : Option String
deriving DecidableEq

structure UpdateCfg where
  name : Option String
  tags : Option (List String)
  pollingIntervalMs : Option Nat
  batchSize : Option Nat
  username : Option String
  avatarUrl : Option String
  webhookNames : Option (List String)
deriving DecidableEq

def getWebhookIdByName : List WebhookRow → String → Option Nat
  | [], _ => none
  | w :: rest, n => if w.name = n then some w.wid else getWebhookIdByName rest n

/-- The resolution loop of `createFeed`/`updateFeed`: the first unknown name
throws, otherwise all ids are collected. -/
def resolveWebhookIds (ws : List WebhookRow) : List String → Option (List Nat)
  | [] => some []
  | n :: rest =>
    match getWebhookIdByName ws n with
    | none => none
    | some i =>
      match resolveWebhookIds ws rest with
      | none => none
      | some is => some (i :: is)

def findFeedByName : List FeedRow → String → Option FeedRow
  | [], _ => none
  | r :: rest, n => if r.name = n then some r else findFeedByName rest n

/-- `createFeed`: duplicate-name check, then webhook resolution, then a
transaction inserting the feed row and its join rows. -/
def createFeed (db : RegistryDb) (cfg : FeedCfg) : RegistryDb × Option String :=
  if (findFeedByName db.feeds cfg.name).isSome then
    (db, some "feed name exists")
  else
    match resolveWebhookIds db.webhooks cfg.webhookNames with
    | none => (db, some "webhook not found")
    | some ids =>
      ({ db with
          feeds := db.feeds ++ [⟨db.nextFeedId, cfg.name, cfg.tags, cfg.pollingIntervalMs,
            cfg.batchSize, cfg.username, cfg.avatarUrl⟩],
          joins := db.joins ++ ids.map (fun i => (db.nextFeedId, i)),
          nextFeedId := db.nextFeedId + 1 }, none)

/-- The scalar-field UPDATE of `updateFeed`, with JavaScript truthiness. -/
def applyFields (row : FeedRow) (nc : UpdateCfg) (oldName : String) : FeedRow :=
  { row with
    name := match nc.name with
      | some n => if ¬ n = "" ∧ ¬ n = oldName then n else row.name
      | none => row.name
    tags := nc.tags.getD row.tags
    pollingIntervalMs := match nc.pollingIntervalMs with
      | some v => if ¬ v = 0 then some v else row.pollingIntervalMs
      | none => row.pollingIntervalMs
    batchSize := match nc.batchSize with
      | some v => if ¬ v = 0 then some v else row.batchSize
      | none => row.batchSize
    username := match nc.username with
      | some u => some u
      | none => row.username
    avatarUrl := match nc.avatarUrl with
      | some u => some u
      | none => row.avatarUrl }

/-- The new-name uniqueness check of `updateFeed` (raised before any write). -/
def nameConflictB (feeds : List FeedRow) (oldName : String) (nc : UpdateCfg) : Bool :=
  match nc.name with
  | some n => (decide (¬ n = "") && decide (¬ n = oldName)) && (findFeedByName feeds n).isSome
  | none => false

/-- `updateFeed`: find the row, check new-name uniqueness, RUN THE FIELD
UPDATE, and only then resolve the new webhook names and replace the join
rows; an unknown name throws after the field update has been committed. -/
def updateFeed (db : RegistryDb) (oldName : String) (nc : UpdateCfg) :
    RegistryDb × Option String :=
  match findFeedByName db.feeds oldName with
  | none => (db, some "feed not found")
  | some row =>
    if nameConflictB db.feeds oldName nc then
      (db, some "name taken")
    else
      let feeds1 := db.feeds.map
        (fun r => if r.fid = row.fid then applyFields r nc oldName else r)
      let db1 := { db with feeds := feeds1 }
      match nc.webhookNames with
      | none => (db1, none)
      | some ws =>
        match resolveWebhookIds db1.webhooks ws with
        | none => (db1, some "webhook not found")
        | some ids =>
          let joins1 :=
            db1.joins.filter (fun j => ¬ j.1 = row.fid) ++ ids.map (fun i => (row.fid, i))
          ({ db1 with joins := joins1 }, none)

theorem resolveWebhookIds_none (ws : List WebhookRow) :
    ∀ ns : List String, (∃ n ∈ ns, getWebhookIdByName ws n = none) →
      resolveWebhookIds ws ns = none := by
  intro ns
  induction ns with
  | nil => intro h; simp at h
  | cons n rest ih =>
    intro h
    cases hn : getWebhookIdByName ws n with
    | none => simp [resolveWebhookIds, hn]
    | some i =>
      have hrest : ∃ m ∈ rest, getWebhookIdByName ws m = none := by
        rcases h with ⟨m, hm, hmn⟩
        rcases List.mem_cons.mp hm with rfl | hm'
        · rw [hn] at hmn; exact absurd hmn (by simp)
        · exact ⟨m, hm', hmn⟩
      simp [resolveWebhookIds, hn, ih hrest]

/-- C5 database for the counterexample: one webhook, one feed joined to it. -/
def c5db : RegistryDb :=
  ⟨[⟨1, "w1", "u1"⟩], [⟨1, "f", ["old"], none, none, none, none⟩], [(1, 1)], 2⟩

/-- C5 update request: new tags together with an unknown webhook name. -/
def c5cfg : UpdateCfg := ⟨none, some ["new"], none, none, none, none, some ["missing"]⟩

/-- C5 counterexample: `updateFeed` referencing an unknown webhook name fails,
yet the feed row's tags have already been rewritten — the durable state is
changed despite the failure. -/
theorem registry_atomicity_counterexample :
    ((updateFeed c5db "f" c5cfg).2 = some "webhook not found") ∧
    ((updateFeed c5db "f" c5cfg).1.feeds ≠ c5db.feeds) ∧
    ((updateFeed c5db "f" c5cfg).1.feeds =
      [⟨1, "f", ["new"], none, none, none, none⟩]) := by decide

/-- C5 (amended): `createFeed` referencing an unknown webhook name fails with
no write at all.  `updateFeed` referencing an unknown webhook name fails and
writes no join row and touches neither the webhooks table nor the id counter,
but the scalar feed-field updates requested in the same call are applied
before the failure and are not rolled back. -/
theorem registry_atomicity_amended (db : RegistryDb) (cfg : FeedCfg)
    (oldName : String) (nc : UpdateCfg)
    (hbad : ∃ w ∈ cfg.webhookNames, getWebhookIdByName db.webhooks w = none)
    (hbad2 : ∃ ws, nc.webhookNames = some ws ∧
      ∃ w ∈ ws, getWebhookIdByName db.webhooks w = none) :
    ((createFeed db cfg).2.isSome ∧ (createFeed db cfg).1 = db) ∧
    ((updateFeed db oldName nc).2.isSome ∧
      (updateFeed db oldName nc).1.joins = db.joins ∧
      (updateFeed db oldName nc).1.webhooks = db.webhooks ∧
      (updateFeed db oldName nc).1.nextFeedId = db.nextFeedId) := by
  constructor
  · by_cases hdup : (findFeedByName db.feeds cfg.name).isSome
    · simp [createFeed, hdup]
    · have hres : resolveWebhookIds db.webhooks cfg.webhookNames = none :=
        resolveWebhookIds_none db.webhooks cfg.webhookNames hbad
      simp [createFeed, hdup, hres]
  · cases hfind : findFeedByName db.feeds oldName with
    | none => simp [updateFeed, hfind]
    | some row =>
      by_cases hconf : nameConflictB db.feeds oldName nc = true
      · simp [updateFeed, hfind, hconf]
      · rcases hbad2 with ⟨ws, hws, hmiss⟩
        have hres : resolveWebhookIds db.webhooks ws = none :=
          resolveWebhookIds_none db.webhooks ws hmiss
        simp [updateFeed, hfind, hconf, hws, hres]

/-- C5 witness: concrete database and requests showing both clauses apply. -/
theorem registry_atomicity_amended_witness :
    ((createFeed c5db ⟨"g", ["t"], ["missing"], none, none, none, none⟩).2.isSome ∧
      (createFeed c5db ⟨"g", ["t"], ["missing"], none, none, none, none⟩).1 = c5db) ∧
    ((updateFeed c5db "f" c5cfg).2.isSome ∧
      (updateFeed c5db "f" c5cfg).1.joins = c5db.joins ∧
      (updateFeed c5db "f" c5cfg).1.webhooks = c5db.webhooks ∧
      (updateFeed c5db "f" c5cfg).1.nextFeedId = c5db.nextFeedId) :=
  registry_atomicity_amended c5db ⟨"g", ["t"], ["missing"], none, none, none, none⟩
    "f" c5cfg (by decide) (by decide)

/-! ## FeedManager.stopFeed / DanbooruPoller.stopFeed (C9)

`FeedManager.stopFeed` (src/src/FeedManager.ts, lines 395-417) recomputes the
feed's tag key and calls `DanbooruPoller.stopFeed(tagKey)`
(src/src/DiscordFeed.ts, lines 386-392) unconditionally — no check whether
another active feed shares the key.  The manager state keeps the durable
name→tags map, the active-feed name set, and the poller's active timer keys. -/

structure ManagerState where
  feedTags : List (String × List String)
  activeFeeds : List String
  activeTimers : List String
deriving DecidableEq

def lookupTags : List (String × List String) → String → Option (List String)
  | [], _ => none
  | e :: rest, n => if e.1 = n then some e.2 else lookupTags rest n

/-- `DanbooruPoller.stopFeed`: false when no timer is active for the key,
otherwise clear the timer and drop the entry. -/
def pollerStopFeed (timers : List String) (tagKey : String) : Bool × List String :=
  if tagKey ∈ timers then (true, timers.filter (fun k' => ¬ k' = tagKey))
  else (false, timers)

/-- `FeedManager.stopFeed`: requires the feed to be active and configured;
stops the poller for the feed's tag key and removes the feed instance. -/
def managerStopFeed (s : ManagerState) (name : String) : ManagerState × Bool :=
  if name ∈ s.activeFeeds then
    match lookupTags s.feedTags name with
    | none => (s, false)
    | some tags =>
      let pr := pollerStopFeed s.activeTimers (getTagKey tags)
      ({ s with activeTimers := pr.2,
                activeFeeds := s.activeFeeds.filter (fun n => ¬ n = name) }, pr.1)
  else (s, false)

/-- C9: when two distinct active feeds resolve to the same tag key and the
shared timer is running, stopping one of them stops the shared scheduler
entry — the timer for that key is gone although the other feed remains
active. -/
theorem shared_key_teardown (s : ManagerState) (f1 f2 : String)
    (tags1 tags2 : List String)
    (h1 : lookupTags s.feedTags f1 = some tags1)
    (hne : ¬ f2 = f1)
    (ha1 : f1 ∈ s.activeFeeds) (ha2 : f2 ∈ s.activeFeeds)
    (hkey : getTagKey tags2 = getTagKey tags1)
    (ht : getTagKey tags1 ∈ s.activeTimers) :
    ((managerStopFeed s f1).2 = true) ∧
    (getTagKey tags2 ∉ (managerStopFeed s f1).1.activeTimers) ∧
    (f2 ∈ (managerStopFeed s f1).1.activeFeeds) := by
  have hval : managerStopFeed s f1 =
      (ManagerState.mk s.feedTags (s.activeFeeds.filter (fun n => ¬ n = f1))
        (s.activeTimers.filter (fun k' => ¬ k' = getTagKey tags1)), true) := by
    simp [managerStopFeed, ha1, h1, pollerStopFeed, ht]
  rw [hval]
  refine ⟨rfl, ?_, ?_⟩
  · rw [hkey]
    intro hmem
    have := (List.mem_filter.mp hmem).2
    simp at this
  · exact List.mem_filter.mpr ⟨ha2, by simpa using hne⟩

/-- C9 witness: feeds "a" and "b" both map to tag key "t"; stopping "a"
removes the "t" timer while "b" stays active. -/
theorem shared_key_teardown_witness :
    ((managerStopFeed ⟨[("a", ["t"]), ("b", ["t"])], ["a", "b"],
        [getTagKey ["t"]]⟩ "a").2 = true) ∧
    (getTagKey ["t"] ∉ (managerStopFeed ⟨[("a", ["t"]), ("b", ["t"])], ["a", "b"],
        [getTagKey ["t"]]⟩ "a").1.activeTimers) ∧
    ("b" ∈ (managerStopFeed ⟨[("a", ["t"]), ("b", ["t"])], ["a", "b"],
        [getTagKey ["t"]]⟩ "a").1.activeFeeds) :=
  shared_key_teardown ⟨[("a", ["t"]), ("b", ["t"])], ["a", "b"], [getTagKey ["t"]]⟩
    "a" "b" ["t"] ["t"] (by decide) (by decide) (by decide) (by decide)
    (by decide) (by decide)

/-! ## Overlapping polls (C10)

`startPollLoop` (src/src/DiscordFeed.ts, lines 407-419) installs
`setInterval(() => { this.pollTag(tagKey).catch(...) }, intervalMs)`: the
callback invokes the asynchronous `pollTag` unconditionally on every firing,
with no per-key Idle/Running state.  The concurrency structure is embedded as
an event trace per tag key: a timer firing starts one more in-flight
`pollTag` instance, a completion retires one. -/

inductive PollEvent where
  | timerFire
  | pollComplete
deriving DecidableEq

/-- Effect of one event on the number of in-flight `pollTag` instances: the
interval callback starts a poll regardless of the current count. -/
def inFlightStep : Nat → PollEvent → Nat
  | n, PollEvent.timerFire => n + 1
  | n, PollEvent.pollComplete => n - 1

def inFlightAfter (events : List PollEvent) : Nat :=
  events.foldl inFlightStep 0

/-- C10: when the timer fires a second time before the first poll completed
(a poll outlasting the interval), the code runs two in-flight poll instances
for the same tag key; the firing is not skipped. -/
theorem overlapping_polls_failing_input :
    inFlightAfter [PollEvent.timerFire, PollEvent.timerFire] = 2 ∧
    ¬ inFlightAfter [PollEvent.timerFire, PollEvent.timerFire] ≤ 1 := by decide
